import Mathlib

/-!
Verification of the Black-Scholes-Merton pricing notebook.

The source consists of the Python functions "blackScholesCall", "callPayoff",
"putPayoff", "binomialPricer", "bsmCallDelta" and "bsmPutDelta" from
Notebooks/BlackScholesMerton.ipynb, embedded here over the real numbers.
The standard normal CDF (scipy.stats.norm.cdf in the source) is an external
mathematical primitive; it is modelled exactly as the Gaussian integral.
The binomial PMF (scipy.stats.binom.pmf in the source) is likewise modelled
by its defining formula.
-/

open MeasureTheory

/-- Model of the external primitive scipy.stats.norm.cdf: the standard normal
cumulative distribution function, as the normalized Gaussian integral. -/
noncomputable def normCdf (x : ℝ) : ℝ :=
  (∫ t in Set.Iic x, Real.exp (-(1 / 2) * t ^ 2)) / Real.sqrt (2 * Real.pi)

/-- Model of scipy.stats.binom.pmf i n p: the binomial probability mass
function, by its defining formula. -/
noncomputable def binomPmf (i n : ℕ) (p : ℝ) : ℝ :=
  (n.choose i : ℝ) * p ^ i * (1 - p) ^ (n - i)

/-- Embedding of the source function blackScholesCall: the auxiliary quantity
d1 computed in its first line. -/
noncomputable def bsmD1 (spot strike vol rate expiry div : ℝ) : ℝ :=
  (Real.log (spot / strike) + (rate - div + 0.5 * vol * vol) * expiry) /
    (vol * Real.sqrt expiry)

/-- Embedding of the source function blackScholesCall: the auxiliary quantity
d2 computed in its second line. -/
noncomputable def bsmD2 (spot strike vol rate expiry div : ℝ) : ℝ :=
  bsmD1 spot strike vol rate expiry div - vol * Real.sqrt expiry

/-- Embedding of the source function blackScholesCall from the notebook. -/
noncomputable def blackScholesCall (spot strike vol rate expiry div : ℝ) : ℝ :=
  spot * Real.exp (-div * expiry) * normCdf (bsmD1 spot strike vol rate expiry div) -
    strike * Real.exp (-rate * expiry) * normCdf (bsmD2 spot strike vol rate expiry div)

/-- Embedding of the source function callPayoff (np.maximum (spot - strike) 0). -/
noncomputable def callPayoff (spot strike : ℝ) : ℝ :=
  max (spot - strike) 0

/-- Embedding of the source function putPayoff (np.maximum (strike - spot) 0). -/
noncomputable def putPayoff (spot strike : ℝ) : ℝ :=
  max (strike - spot) 0

/-- Embedding of the source function bsmCallDelta: it recomputes the same d1
expression as blackScholesCall and returns exp (-div tau) N(d1). -/
noncomputable def bsmCallDelta (spot strike vol rate tau div : ℝ) : ℝ :=
  Real.exp (-div * tau) * normCdf (bsmD1 spot strike vol rate tau div)

/-- Embedding of the source function bsmPutDelta: it recomputes the same d1
expression and returns exp (-div tau) N(-d1); note there is no minus sign in
front of the product in the source. -/
noncomputable def bsmPutDelta (spot strike vol rate tau div : ℝ) : ℝ :=
  Real.exp (-div * tau) * normCdf (-bsmD1 spot strike vol rate tau div)

/-- Embedding of the step size h = T / n computed by binomialPricer. -/
noncomputable def latticeH (T : ℝ) (n : ℕ) : ℝ := T / n

/-- Embedding of the up move size u computed by binomialPricer. -/
noncomputable def latticeU (r v q T : ℝ) (n : ℕ) : ℝ :=
  Real.exp ((r - q) * latticeH T n + v * Real.sqrt (latticeH T n))

/-- Embedding of the down move size d computed by binomialPricer. -/
noncomputable def latticeD (r v q T : ℝ) (n : ℕ) : ℝ :=
  Real.exp ((r - q) * latticeH T n - v * Real.sqrt (latticeH T n))

/-- Embedding of the risk-neutral probability pstar computed by binomialPricer. -/
noncomputable def latticePstar (r v q T : ℝ) (n : ℕ) : ℝ :=
  (Real.exp ((r - q) * latticeH T n) - latticeD r v q T n) /
    (latticeU r v q T n - latticeD r v q T n)

/-- Embedding of the terminal spot spotT = S * u ** i * d ** (n - i) computed
at node i in the loop of binomialPricer. -/
noncomputable def binomialNodeSpot (S r v q T : ℝ) (n i : ℕ) : ℝ :=
  S * latticeU r v q T n ^ i * latticeD r v q T n ^ (n - i)

/-- Embedding of one iteration of the loop of binomialPricer.  The accumulator
carries the running price and the list of lines printed so far; a line holds
the tuple (spotT, po, prob) that the source prints when verbose is true. -/
noncomputable def binomialStep (S K r v q T : ℝ) (n : ℕ) (payoff : ℝ → ℝ → ℝ)
    (verbose : Bool) (acc : ℝ × List (ℝ × ℝ × ℝ)) (i : ℕ) : ℝ × List (ℝ × ℝ × ℝ) :=
  (acc.1 + payoff (binomialNodeSpot S r v q T n i) K * binomPmf i n (latticePstar r v q T n),
    if verbose then
      acc.2 ++ [(binomialNodeSpot S r v q T n i,
        payoff (binomialNodeSpot S r v q T n i) K, binomPmf i n (latticePstar r v q T n))]
    else acc.2)

/-- Embedding of the source function binomialPricer, with its print output
made explicit: the loop over the nodes = n + 1 terminal indices, followed by
the discounting price *= exp (-r T).  Returns the price and the printed lines. -/
noncomputable def binomialPricerRun (S K r v q T : ℝ) (n : ℕ) (payoff : ℝ → ℝ → ℝ)
    (verbose : Bool) : ℝ × List (ℝ × ℝ × ℝ) :=
  ((((List.range (n + 1)).foldl (binomialStep S K r v q T n payoff verbose) (0, [])).1 *
      Real.exp (-r * T)),
    (((List.range (n + 1)).foldl (binomialStep S K r v q T n payoff verbose) (0, [])).2))

/-- Embedding of the value returned by the source function binomialPricer. -/
noncomputable def binomialPricer (S K r v q T : ℝ) (n : ℕ) (payoff : ℝ → ℝ → ℝ)
    (verbose : Bool) : ℝ :=
  (binomialPricerRun S K r v q T n payoff verbose).1

/-- Spec formula for d1: (ln (S/K) + (r - delta + 0.5 sigma^2) tau) / (sigma sqrt tau),
written from the words of the specification. -/
noncomputable def specD1 (S K sigma r tau delta : ℝ) : ℝ :=
  (Real.log (S / K) + (r - delta + 0.5 * sigma ^ 2) * tau) / (sigma * Real.sqrt tau)

/-- Spec formula for d2 = d1 - sigma sqrt tau. -/
noncomputable def specD2 (S K sigma r tau delta : ℝ) : ℝ :=
  specD1 S K sigma r tau delta - sigma * Real.sqrt tau

/-- Spec formula for the call price: S exp (-delta tau) N(d1) - K exp (-r tau) N(d2). -/
noncomputable def specCallPrice (S K sigma r tau delta : ℝ) : ℝ :=
  S * Real.exp (-delta * tau) * normCdf (specD1 S K sigma r tau delta) -
    K * Real.exp (-r * tau) * normCdf (specD2 S K sigma r tau delta)

/-- Spec formula for the call delta: exp (-delta tau) N(d1). -/
noncomputable def specCallDelta (S K sigma r tau delta : ℝ) : ℝ :=
  Real.exp (-delta * tau) * normCdf (specD1 S K sigma r tau delta)

/-- Spec formula for the put delta as the spec states the code computes it:
exp (-delta tau) N(-d1). -/
noncomputable def specPutDelta (S K sigma r tau delta : ℝ) : ℝ :=
  Real.exp (-delta * tau) * normCdf (-specD1 S K sigma r tau delta)

/-- Spec formula for the binomial lattice price: with h = tau/n,
u = exp ((r-q) h + sigma sqrt h), d = exp ((r-q) h - sigma sqrt h) and
pstar = (exp ((r-q) h) - d) / (u - d), the discounted sum over the n + 1
terminal nodes of payoff times the binomial probability. -/
noncomputable def specBinomialPrice (S K r v q T : ℝ) (n : ℕ) (payoff : ℝ → ℝ → ℝ) : ℝ :=
  let h := T / n
  let u := Real.exp ((r - q) * h + v * Real.sqrt h)
  let d := Real.exp ((r - q) * h - v * Real.sqrt h)
  let pstar := (Real.exp ((r - q) * h) - d) / (u - d)
  Real.exp (-r * T) * ∑ i ∈ Finset.range (n + 1),
    payoff (S * u ^ i * d ^ (n - i)) K *
      ((n.choose i : ℝ) * pstar ^ i * (1 - pstar) ^ (n - i))

lemma gaussianIntegrable : Integrable (fun t : ℝ => Real.exp (-(1 / 2) * t ^ 2)) :=
  integrable_exp_neg_mul_sq (by norm_num)

lemma gaussianTotal :
    (∫ t : ℝ, Real.exp (-(1 / 2) * t ^ 2)) = Real.sqrt (2 * Real.pi) := by
  rw [integral_gaussian]
  congr 1
  ring

lemma sqrtTwoPiPos : 0 < Real.sqrt (2 * Real.pi) :=
  Real.sqrt_pos.mpr (by positivity)

lemma normCdf_nonneg (x : ℝ) : 0 ≤ normCdf x := by
  unfold normCdf
  exact div_nonneg
    (setIntegral_nonneg measurableSet_Iic fun t _ => (Real.exp_pos _).le)
    (Real.sqrt_nonneg _)

lemma normCdf_le_one (x : ℝ) : normCdf x ≤ 1 := by
  unfold normCdf
  rw [div_le_one sqrtTwoPiPos, ← gaussianTotal]
  exact setIntegral_le_integral gaussianIntegrable
    (ae_of_all _ fun t => (Real.exp_pos _).le)

lemma normCdf_neg (x : ℝ) : normCdf (-x) = 1 - normCdf x := by
  unfold normCdf
  have h1 : (∫ t in Set.Iic (-x), Real.exp (-(1 / 2) * t ^ 2)) =
      ∫ t in Set.Ioi x, Real.exp (-(1 / 2) * t ^ 2) := by
    have h := integral_comp_neg_Iic (-x) (fun t => Real.exp (-(1 / 2) * t ^ 2))
    simp only [neg_neg, neg_sq] at h
    exact h
  have h2 := intervalIntegral.integral_Iic_add_Ioi (μ := volume) (b := x)
    gaussianIntegrable.integrableOn gaussianIntegrable.integrableOn
  rw [gaussianTotal] at h2
  rw [h1, eq_sub_iff_add_eq, div_add_div_same, div_eq_iff sqrtTwoPiPos.ne', one_mul]
  linarith

lemma normCdf_zero : normCdf 0 = 1 / 2 := by
  have h := normCdf_neg 0
  rw [neg_zero] at h
  linarith

lemma specD1_eq_bsmD1 (S K sigma r tau delta : ℝ) :
    specD1 S K sigma r tau delta = bsmD1 S K sigma r tau delta := by
  unfold specD1 bsmD1
  ring_nf

lemma binomialStep_fst (S K r v q T : ℝ) (n : ℕ) (payoff : ℝ → ℝ → ℝ)
    (verbose : Bool) (acc : ℝ × List (ℝ × ℝ × ℝ)) (i : ℕ) :
    (binomialStep S K r v q T n payoff verbose acc i).1 =
      acc.1 + payoff (binomialNodeSpot S r v q T n i) K *
        binomPmf i n (latticePstar r v q T n) := rfl

lemma binomialFoldl_fst (S K r v q T : ℝ) (n : ℕ) (payoff : ℝ → ℝ → ℝ)
    (verbose : Bool) (m : ℕ) :
    ∀ acc : ℝ × List (ℝ × ℝ × ℝ),
      ((List.range m).foldl (binomialStep S K r v q T n payoff verbose) acc).1 =
        acc.1 + ∑ i ∈ Finset.range m,
          payoff (binomialNodeSpot S r v q T n i) K *
            binomPmf i n (latticePstar r v q T n) := by
  induction m with
  | zero => intro acc; simp
  | succ m ih =>
    intro acc
    rw [List.range_succ, List.foldl_append, List.foldl_cons, List.foldl_nil,
      binomialStep_fst, ih acc, Finset.sum_range_succ]
    ring

lemma binomialPricerRun_fst (S K r v q T : ℝ) (n : ℕ) (payoff : ℝ → ℝ → ℝ)
    (verbose : Bool) :
    (binomialPricerRun S K r v q T n payoff verbose).1 =
      (∑ i ∈ Finset.range (n + 1),
        payoff (binomialNodeSpot S r v q T n i) K *
          binomPmf i n (latticePstar r v q T n)) * Real.exp (-r * T) := by
  show (((List.range (n + 1)).foldl (binomialStep S K r v q T n payoff verbose) (0, [])).1 *
      Real.exp (-r * T)) = _
  rw [binomialFoldl_fst S K r v q T n payoff verbose (n + 1) (0, [])]
  norm_num

lemma latticeH_pos {T : ℝ} {n : ℕ} (hT : 0 < T) (hn : 1 ≤ n) : 0 < latticeH T n :=
  div_pos hT (by exact_mod_cast Nat.cast_pos.mpr hn)

lemma latticeD_lt_exp {r v q T : ℝ} {n : ℕ} (hv : 0 < v) (hT : 0 < T) (hn : 1 ≤ n) :
    latticeD r v q T n < Real.exp ((r - q) * latticeH T n) := by
  unfold latticeD
  apply Real.exp_lt_exp.mpr
  have hs : 0 < Real.sqrt (latticeH T n) := Real.sqrt_pos.mpr (latticeH_pos hT hn)
  nlinarith [mul_pos hv hs]

lemma exp_lt_latticeU {r v q T : ℝ} {n : ℕ} (hv : 0 < v) (hT : 0 < T) (hn : 1 ≤ n) :
    Real.exp ((r - q) * latticeH T n) < latticeU r v q T n := by
  unfold latticeU
  apply Real.exp_lt_exp.mpr
  have hs : 0 < Real.sqrt (latticeH T n) := Real.sqrt_pos.mpr (latticeH_pos hT hn)
  nlinarith [mul_pos hv hs]

lemma latticeD_lt_latticeU {r v q T : ℝ} {n : ℕ} (hv : 0 < v) (hT : 0 < T) (hn : 1 ≤ n) :
    latticeD r v q T n < latticeU r v q T n :=
  (latticeD_lt_exp hv hT hn).trans (exp_lt_latticeU hv hT hn)

lemma latticePstar_pos {r v q T : ℝ} {n : ℕ} (hv : 0 < v) (hT : 0 < T) (hn : 1 ≤ n) :
    0 < latticePstar r v q T n :=
  div_pos (sub_pos.mpr (latticeD_lt_exp hv hT hn))
    (sub_pos.mpr (latticeD_lt_latticeU hv hT hn))

lemma latticePstar_lt_one {r v q T : ℝ} {n : ℕ} (hv : 0 < v) (hT : 0 < T) (hn : 1 ≤ n) :
    latticePstar r v q T n < 1 := by
  unfold latticePstar
  rw [div_lt_one (sub_pos.mpr (latticeD_lt_latticeU hv hT hn))]
  have h2 := exp_lt_latticeU (r := r) (q := q) hv hT hn
  linarith

lemma latticePstar_convex {r v q T : ℝ} {n : ℕ} (hv : 0 < v) (hT : 0 < T) (hn : 1 ≤ n) :
    latticePstar r v q T n * latticeU r v q T n +
      (1 - latticePstar r v q T n) * latticeD r v q T n =
      Real.exp ((r - q) * latticeH T n) := by
  have hud : latticeU r v q T n - latticeD r v q T n ≠ 0 :=
    sub_ne_zero.mpr (latticeD_lt_latticeU hv hT hn).ne'
  unfold latticePstar
  field_simp
  ring

lemma binomPmf_sum (n : ℕ) (p : ℝ) :
    ∑ i ∈ Finset.range (n + 1), binomPmf i n p = 1 := by
  have h : ∑ i ∈ Finset.range (n + 1), binomPmf i n p =
      ∑ i ∈ Finset.range (n + 1), p ^ i * (1 - p) ^ (n - i) * (n.choose i : ℝ) := by
    refine Finset.sum_congr rfl fun i _ => ?_
    unfold binomPmf
    ring
  rw [h, ← add_pow p (1 - p) n]
  norm_num

lemma binomPmf_nodeSpot_sum {S r v q T : ℝ} {n : ℕ} (hv : 0 < v) (hT : 0 < T)
    (hn : 1 ≤ n) :
    ∑ i ∈ Finset.range (n + 1),
        binomialNodeSpot S r v q T n i * binomPmf i n (latticePstar r v q T n) =
      S * Real.exp ((r - q) * T) := by
  have h1 : ∑ i ∈ Finset.range (n + 1),
      binomialNodeSpot S r v q T n i * binomPmf i n (latticePstar r v q T n) =
      S * ∑ i ∈ Finset.range (n + 1),
        (latticePstar r v q T n * latticeU r v q T n) ^ i *
          ((1 - latticePstar r v q T n) * latticeD r v q T n) ^ (n - i) *
            (n.choose i : ℝ) := by
    rw [Finset.mul_sum]
    refine Finset.sum_congr rfl fun i _ => ?_
    unfold binomialNodeSpot binomPmf
    rw [mul_pow, mul_pow]
    ring
  rw [h1, ← add_pow, latticePstar_convex hv hT hn, ← Real.exp_nat_mul]
  congr 1
  unfold latticeH
  have hn0 : (n : ℝ) ≠ 0 :=
    Nat.cast_ne_zero.mpr (Nat.one_le_iff_ne_zero.mp hn)
  field_simp

lemma bsmD1_at_half_div : bsmD1 1 1 1 0 1 (1 / 2) = 0 := by
  unfold bsmD1
  norm_num

/-- C1: for every parameter set, the analytic call pricer returns
S exp (-delta tau) N(d1) - K exp (-r tau) N(d2), with d1 and d2 exactly as the
spec writes them; stated for all real parameters, hence in particular for
every valid parameter set. -/
theorem blackScholesCall_matches_spec (S K sigma r tau delta : ℝ) :
    blackScholesCall S K sigma r tau delta = specCallPrice S K sigma r tau delta := by
  unfold blackScholesCall specCallPrice specD2 bsmD2
  rw [specD1_eq_bsmD1]

/-- C3: for every parameter set, bsmCallDelta returns exp (-delta tau) N(d1)
and bsmPutDelta returns exp (-delta tau) N(-d1), with d1 computed as in the
analytic price formula; stated for all real parameters. -/
theorem bsmDeltas_match_spec (S K sigma r tau delta : ℝ) :
    bsmCallDelta S K sigma r tau delta = specCallDelta S K sigma r tau delta ∧
      bsmPutDelta S K sigma r tau delta = specPutDelta S K sigma r tau delta := by
  unfold bsmCallDelta specCallDelta bsmPutDelta specPutDelta
  rw [specD1_eq_bsmD1]
  exact ⟨rfl, rfl⟩

/-- C4: evaluation of the source at the failing input volatility = 0 (a valid
spot, strike, rate, expiry otherwise).  The source contains no parameter
validation and no error path at all: the computation runs straight through the
division by vol * sqrt expiry = 0 and returns an ordinary number.  In this
real-number embedding the division-by-zero convention 0 is used; in the numpy
source the same division produces inf or nan.  In either case no
InvalidParameter error is raised, contradicting the claim. -/
theorem blackScholesCall_zero_vol_no_error :
    blackScholesCall 40 40 0 (2 / 25) (1 / 4) 0 =
      20 - 20 * Real.exp (-(2 / 25) * (1 / 4)) := by
  unfold blackScholesCall bsmD2 bsmD1
  norm_num [normCdf_zero]
  ring

/-- C5 counterexample: at the valid parameter set spot = 1, strike = 1,
vol = 1, rate = 0, tau = 1, div = 1/2 the call delta minus the put delta is 0,
not exp (-div tau): the d1 of this input is 0, so both deltas equal
exp (-(1/2)) * (1/2).  The claim as stated is therefore false. -/
theorem callDelta_sub_putDelta_ne_exp :
    bsmCallDelta 1 1 1 0 1 (1 / 2) - bsmPutDelta 1 1 1 0 1 (1 / 2) ≠
      Real.exp (-(1 / 2) * 1) := by
  unfold bsmCallDelta bsmPutDelta
  rw [bsmD1_at_half_div, neg_zero, sub_self]
  exact fun h => Real.exp_ne_zero _ h.symm

/-- C5 amended: the code computes the put delta without the conventional minus
sign, so the two deltas SUM to exp (-div tau): for every parameter set,
bsmCallDelta + bsmPutDelta = exp (-div tau). -/
theorem callDelta_add_putDelta_eq_exp (S K sigma r tau delta : ℝ) :
    bsmCallDelta S K sigma r tau delta + bsmPutDelta S K sigma r tau delta =
      Real.exp (-delta * tau) := by
  unfold bsmCallDelta bsmPutDelta
  rw [normCdf_neg]
  ring

/-- C6 counterexample: at the valid parameter set spot = 1, strike = 1,
vol = 1, rate = 0, tau = 1, div = 1/2 the put delta returned by the code is
exp (-(1/2)) * (1/2), which is strictly positive, so the claimed bound
PutDelta less-or-equal 0 fails. -/
theorem putDelta_not_nonpos :
    ¬ bsmPutDelta 1 1 1 0 1 (1 / 2) ≤ 0 := by
  unfold bsmPutDelta
  rw [bsmD1_at_half_div, neg_zero, normCdf_zero]
  push_neg
  positivity

/-- C6 amended: the code returns a put delta with no minus sign, so both
deltas lie in the band from 0 to exp (-div tau): for every parameter set,
0 le bsmCallDelta le exp (-div tau) and 0 le bsmPutDelta le exp (-div tau). -/
theorem bsmDeltas_bounds (S K sigma r tau delta : ℝ) :
    0 ≤ bsmCallDelta S K sigma r tau delta ∧
      bsmCallDelta S K sigma r tau delta ≤ Real.exp (-delta * tau) ∧
      0 ≤ bsmPutDelta S K sigma r tau delta ∧
      bsmPutDelta S K sigma r tau delta ≤ Real.exp (-delta * tau) := by
  unfold bsmCallDelta bsmPutDelta
  have he := Real.exp_pos (-delta * tau)
  exact ⟨mul_nonneg he.le (normCdf_nonneg _),
    mul_le_of_le_one_right he.le (normCdf_le_one _),
    mul_nonneg he.le (normCdf_nonneg _),
    mul_le_of_le_one_right he.le (normCdf_le_one _)⟩

/-- C2: for every parameter set and step count n at least 1 (and either value
of the verbose flag), binomialPricer returns exp (-r T) times the sum over the
n + 1 terminal node indices of payoff (S u^i d^(n-i), K) times the binomial
probability C(n,i) pstar^i (1-pstar)^(n-i), with h, u, d and pstar as the spec
writes them: the single terminal sum, with no backward induction. -/
theorem binomialPricer_matches_spec (S K r v q T : ℝ) (n : ℕ)
    (payoff : ℝ → ℝ → ℝ) (b : Bool) (hn : 1 ≤ n) :
    binomialPricer S K r v q T n payoff b = specBinomialPrice S K r v q T n payoff := by
  unfold binomialPricer
  rw [binomialPricerRun_fst]
  simp only [specBinomialPrice]
  unfold binomialNodeSpot binomPmf latticePstar latticeU latticeD latticeH
  exact mul_comm _ _

/-- Witness for C2 at the concrete valid input S = K = 1, r = 0, v = 1, q = 0,
T = 1, n = 1 with the call payoff and verbose = true. -/
theorem binomialPricer_matches_spec_witness :
    1 ≤ 1 ∧
      binomialPricer 1 1 0 1 0 1 1 callPayoff true =
        specBinomialPrice 1 1 0 1 0 1 1 callPayoff :=
  ⟨le_refl 1, binomialPricer_matches_spec 1 1 0 1 0 1 1 callPayoff true (le_refl 1)⟩

/-- C9: the verbose flag only controls the diagnostic printing; the price
returned by binomialPricer is the same for any two values of the flag, for
every input. -/
theorem binomialPricer_verbose_independent (S K r v q T : ℝ) (n : ℕ)
    (payoff : ℝ → ℝ → ℝ) (a b : Bool) :
    binomialPricer S K r v q T n payoff a = binomialPricer S K r v q T n payoff b := by
  unfold binomialPricer
  rw [binomialPricerRun_fst, binomialPricerRun_fst]

/-- C8: for volatility and expiry positive and at least one step, the derived
move sizes satisfy the no-arbitrage invariant d < exp ((r - q) h) < u, and the
risk-neutral probability pstar computed by binomialPricer lies strictly
between 0 and 1. -/
theorem lattice_no_arbitrage (r v q T : ℝ) (n : ℕ)
    (hv : 0 < v) (hT : 0 < T) (hn : 1 ≤ n) :
    latticeD r v q T n < Real.exp ((r - q) * latticeH T n) ∧
      Real.exp ((r - q) * latticeH T n) < latticeU r v q T n ∧
      0 < latticePstar r v q T n ∧ latticePstar r v q T n < 1 :=
  ⟨latticeD_lt_exp hv hT hn, exp_lt_latticeU hv hT hn,
    latticePstar_pos hv hT hn, latticePstar_lt_one hv hT hn⟩

/-- Witness for C8 at the concrete input r = 0, v = 1, q = 0, T = 1, n = 1. -/
theorem lattice_no_arbitrage_witness :
    (0 : ℝ) < 1 ∧ 1 ≤ 1 ∧
      (latticeD 0 1 0 1 1 < Real.exp ((0 - 0) * latticeH 1 1) ∧
        Real.exp ((0 - 0) * latticeH 1 1) < latticeU 0 1 0 1 1 ∧
        0 < latticePstar 0 1 0 1 1 ∧ latticePstar 0 1 0 1 1 < 1) :=
  ⟨by norm_num, le_refl 1,
    lattice_no_arbitrage 0 1 0 1 1 (by norm_num) (by norm_num) (le_refl 1)⟩

/-- C10: for volatility and expiry positive, at least one step and a payoff
function that is nonnegative everywhere (as the built-in call and put payoffs
are), the price returned by binomialPricer is nonnegative. -/
theorem binomialPricer_nonneg (S K r v q T : ℝ) (n : ℕ)
    (payoff : ℝ → ℝ → ℝ) (b : Bool) (hv : 0 < v) (hT : 0 < T) (hn : 1 ≤ n)
    (hpay : ∀ s k, 0 ≤ payoff s k) :
    0 ≤ binomialPricer S K r v q T n payoff b := by
  unfold binomialPricer
  rw [binomialPricerRun_fst]
  refine mul_nonneg (Finset.sum_nonneg fun i _ => ?_) (Real.exp_pos _).le
  refine mul_nonneg (hpay _ _) ?_
  have hp := latticePstar_pos (r := r) (q := q) hv hT hn
  have hp1 := latticePstar_lt_one (r := r) (q := q) hv hT hn
  unfold binomPmf
  have h1 : (0 : ℝ) ≤ 1 - latticePstar r v q T n := by linarith
  positivity

/-- Witness for C10 at the concrete input S = K = 1, r = 0, v = 1, q = 0,
T = 1, n = 1 with the built-in call payoff and verbose = true. -/
theorem binomialPricer_nonneg_witness :
    0 ≤ binomialPricer 1 1 0 1 0 1 1 callPayoff true :=
  binomialPricer_nonneg 1 1 0 1 0 1 1 callPayoff true (by norm_num) (by norm_num)
    (le_refl 1) (fun s k => le_max_right _ _)

/-- C7: put-call parity for the binomial lattice pricer.  For every valid
parameter set and step count of at least 1, the price with the built-in call
payoff minus the price with the built-in put payoff equals
S exp (-q T) - K exp (-r T), exactly in real arithmetic. -/
theorem binomialPricer_put_call_parity (S K r v q T : ℝ) (n : ℕ) (b : Bool)
    (hS : 0 < S) (hK : 0 < K) (hv : 0 < v) (hq : 0 ≤ q) (hT : 0 < T) (hn : 1 ≤ n) :
    binomialPricer S K r v q T n callPayoff b - binomialPricer S K r v q T n putPayoff b =
      S * Real.exp (-q * T) - K * Real.exp (-r * T) := by
  unfold binomialPricer
  rw [binomialPricerRun_fst, binomialPricerRun_fst, ← sub_mul, ← Finset.sum_sub_distrib]
  have hterm : ∀ i ∈ Finset.range (n + 1),
      callPayoff (binomialNodeSpot S r v q T n i) K * binomPmf i n (latticePstar r v q T n) -
        putPayoff (binomialNodeSpot S r v q T n i) K * binomPmf i n (latticePstar r v q T n) =
      binomialNodeSpot S r v q T n i * binomPmf i n (latticePstar r v q T n) -
        K * binomPmf i n (latticePstar r v q T n) := by
    intro i _
    rw [← sub_mul, ← sub_mul]
    congr 1
    unfold callPayoff putPayoff
    rw [show K - binomialNodeSpot S r v q T n i = -(binomialNodeSpot S r v q T n i - K) by ring]
    exact max_zero_sub_eq_self _
  rw [Finset.sum_congr rfl hterm, Finset.sum_sub_distrib,
    binomPmf_nodeSpot_sum hv hT hn, ← Finset.mul_sum, binomPmf_sum, mul_one, sub_mul,
    mul_assoc, ← Real.exp_add]
  rw [show (r - q) * T + -r * T = -q * T by ring]

/-- Witness for C7 at the concrete valid input S = K = 1, r = 0, v = 1, q = 0,
T = 1, n = 1 with verbose = false. -/
theorem binomialPricer_put_call_parity_witness :
    binomialPricer 1 1 0 1 0 1 1 callPayoff false -
        binomialPricer 1 1 0 1 0 1 1 putPayoff false =
      1 * Real.exp (-0 * 1) - 1 * Real.exp (-0 * 1) :=
  binomialPricer_put_call_parity 1 1 0 1 0 1 1 false (by norm_num) (by norm_num)
    (by norm_num) (le_refl 0) (by norm_num) (le_refl 1)
